import Mathlib

/-!
Verification of the feed-forward classifier, its checkpoint round-trip and the
notebook training loop from `deep-learning-v2-pytorch/intro-to-pytorch`
(Part 3 "Training Neural Networks" and Part 6 "Saving and Loading Models").

Numeric parameters are modelled over `ℚ` (exact rationals in place of the
engine's floats); the final log-softmax and the loss functions live over `ℝ`
since they involve `exp`/`log`.  The `fc_model` module imported by the Part 6
notebook is not part of the sources here, so its `Network` class and helpers
are modelled from the spec (each such definition says so in its doc comment);
the checkpoint dictionary, `load_checkpoint` and the Part 3 epoch loop are
embedded from the notebook cells themselves.
-/

namespace FcModel

/-- Parameter kind of an affine layer: weight matrix or bias vector
(spec §3: parameters are "keyed by layer identity and parameter kind"). -/
inductive ParamKind
  | weight
  | bias
deriving DecidableEq

/-- Identity of one parameter tensor in the state dict: either parameter `kind`
of hidden layer `idx` (the notebook key `hidden_layers.{idx}.{kind}`) or of the
output layer (key `output.{kind}`). -/
inductive ParamKey
  | hidden (idx : ℕ) (kind : ParamKind)
  | output (kind : ParamKind)
deriving DecidableEq

/-- A stored tensor: a matrix (list of rows) or a vector, over exact rationals. -/
inductive Tensor
  | mat (rows : List (List ℚ))
  | vec (entries : List ℚ)
deriving DecidableEq

/-- Shape of a stored tensor, as the engine reports it:
`[rows, row_width]` for matrices and `[len]` for vectors. -/
def Tensor.shape : Tensor → List ℕ
  | .mat rows => [rows.length, (rows.headD []).length]
  | .vec v => [v.length]

/-- One affine layer `x ↦ W x + b` (the engine's `nn.Linear(in_features,
out_features)`): declared dimensions plus the learned weight matrix of shape
`(out_features, in_features)` and bias vector of length `out_features`. -/
structure Linear where
  in_features : ℕ
  out_features : ℕ
  weight : List (List ℚ)
  bias : List ℚ
deriving DecidableEq

/-- A freshly allocated affine layer (parameter values zero-initialised; only
their shapes matter to the claims). -/
def mkLinear (inF outF : ℕ) : Linear :=
  ⟨inF, outF, List.replicate outF (List.replicate inF 0), List.replicate outF 0⟩

/-- Modelled from the spec: the `fc_model.Network` classifier state that the
notebooks construct and print — `input_size`, `output_size`, the ordered hidden
affine layers, the output affine layer, the dropout probability and the
training/evaluation mode flag. -/
structure Network where
  input_size : ℕ
  output_size : ℕ
  hidden_layers : List Linear
  output : Linear
  drop_p : ℚ
  training : Bool
deriving DecidableEq

/-- The default dropout rate 0.5 (the notebook prints `Dropout(p=0.5)` for a
network constructed without an explicit `drop_p`). -/
def defaultDropP : ℚ := ⟨1, 2, by decide, by decide⟩

/-- A named shape mismatch found while loading a state dict: the offending
parameter together with its recorded (checkpoint) shape and the target (model)
shape. -/
structure Mismatch where
  key : ParamKey
  recorded : List ℕ
  target : List ℕ
deriving DecidableEq

/-- The error kinds of spec §7. -/
inductive FcError
  | configurationError
  | shapeMismatchError (mismatches : List Mismatch)
deriving DecidableEq

/-- Modelled from the spec: `fc_model.Network.__init__` — given
`(input_size, output_size, hidden_sizes, drop_p)`, fails with a
`ConfigurationError` when `input_size`, `output_size` or any entry of
`hidden_sizes` is not positive, and otherwise allocates one affine layer per
consecutive pair in `[input_size] + hidden_sizes + [output_size]` (the hidden
layers followed by the output layer), in training mode. -/
def Network.construct (input_size output_size : ℕ) (hidden_sizes : List ℕ)
    (drop_p : ℚ) : Except FcError Network :=
  if input_size = 0 ∨ output_size = 0 ∨ ∃ h ∈ hidden_sizes, h = 0 then
    .error .configurationError
  else
    .ok { input_size := input_size
          output_size := output_size
          hidden_layers :=
            (List.zip (input_size :: hidden_sizes) hidden_sizes).map
              fun p => mkLinear p.1 p.2
          output := mkLinear (hidden_sizes.getLastD input_size) output_size
          drop_p := drop_p
          training := true }

/-- The hidden-layer widths of a classifier, read as `out_features` of every
layer except the last, in layer order (the Part 6 comprehension
`[each.out_features for each in model.hidden_layers]`). -/
def Network.hiddenSizes (net : Network) : List ℕ :=
  net.hidden_layers.map fun l => l.out_features

/-- State-dict entries of the hidden layers starting at index `base`: for each
layer, its weight then its bias, in layer order (the engine's
`model.state_dict()` ordering printed by the Part 6 notebook). -/
def hiddenEntries : ℕ → List Linear → List (ParamKey × Tensor)
  | _, [] => []
  | j, l :: ls =>
      (ParamKey.hidden j ParamKind.weight, Tensor.mat l.weight) ::
      (ParamKey.hidden j ParamKind.bias, Tensor.vec l.bias) ::
      hiddenEntries (j + 1) ls

/-- The full state dict of a network: hidden-layer entries in order, then the
output layer's weight and bias (exactly the key order the notebook prints). -/
def Network.state_dict (net : Network) : List (ParamKey × Tensor) :=
  hiddenEntries 0 net.hidden_layers ++
    [(ParamKey.output ParamKind.weight, Tensor.mat net.output.weight),
     (ParamKey.output ParamKind.bias, Tensor.vec net.output.bias)]

/-- Dict lookup in a state dict (first entry with the given key). -/
def lookupT (sd : List (ParamKey × Tensor)) (k : ParamKey) : Option Tensor :=
  (sd.find? fun p => p.1 == k).map Prod.snd

/-- Expected parameter shapes of the hidden layers starting at index `base`:
weight shape `[out_features, in_features]` and bias shape `[out_features]` for
each layer, in layer order. -/
def hiddenSpecs : ℕ → List Linear → List (ParamKey × List ℕ)
  | _, [] => []
  | j, l :: ls =>
      (ParamKey.hidden j ParamKind.weight, [l.out_features, l.in_features]) ::
      (ParamKey.hidden j ParamKind.bias, [l.out_features]) ::
      hiddenSpecs (j + 1) ls

/-- Expected parameter shapes of all parameters of a network, in state-dict
order. -/
def Network.paramSpecs (net : Network) : List (ParamKey × List ℕ) :=
  hiddenSpecs 0 net.hidden_layers ++
    [(ParamKey.output ParamKind.weight,
        [net.output.out_features, net.output.in_features]),
     (ParamKey.output ParamKind.bias, [net.output.out_features])]

/-- Check one expected parameter against the incoming state dict: report a
`Mismatch` (key, recorded shape, target shape) when the stored tensor's shape
disagrees with the target shape. -/
def checkOne (sd : List (ParamKey × Tensor)) (spec : ParamKey × List ℕ) :
    Option Mismatch :=
  match lookupT sd spec.1 with
  | none => none
  | some t => if t.shape = spec.2 then none else some ⟨spec.1, t.shape, spec.2⟩

/-- All size mismatches between a model's parameters and an incoming state
dict (the engine's `load_state_dict` collects one error message per mismatched
parameter before raising). -/
def Network.collectMismatches (net : Network) (sd : List (ParamKey × Tensor)) :
    List Mismatch :=
  net.paramSpecs.filterMap (checkOne sd)

/-- Copy a layer's parameters from a state dict: each parameter is replaced by
the stored tensor when present with the matching shape. -/
def Linear.copyFrom (l : Linear) (mk : ParamKind → ParamKey)
    (sd : List (ParamKey × Tensor)) : Linear :=
  { l with
    weight :=
      match lookupT sd (mk ParamKind.weight) with
      | some (Tensor.mat m) =>
          if (Tensor.mat m).shape = [l.out_features, l.in_features] then m
          else l.weight
      | _ => l.weight
    bias :=
      match lookupT sd (mk ParamKind.bias) with
      | some (Tensor.vec v) =>
          if (Tensor.vec v).shape = [l.out_features] then v else l.bias
      | _ => l.bias }

/-- Copy the hidden layers (starting at index `base`) from a state dict. -/
def copyHidden (sd : List (ParamKey × Tensor)) :
    ℕ → List Linear → List Linear
  | _, [] => []
  | j, l :: ls =>
      l.copyFrom (ParamKey.hidden j) sd :: copyHidden sd (j + 1) ls

/-- Copy every parameter of a network from a state dict. -/
def Network.copyFrom (net : Network) (sd : List (ParamKey × Tensor)) :
    Network :=
  { net with
    hidden_layers := copyHidden sd 0 net.hidden_layers
    output := net.output.copyFrom ParamKey.output sd }

/-- Modelled from the spec: the engine's strict `model.load_state_dict` as the
notebooks use it — if any stored parameter's shape disagrees with the model's,
raise a `ShapeMismatchError` naming every offending parameter with its
recorded and target shapes (the Part 6 cell demonstrates exactly this error);
otherwise copy every stored parameter into the model.  Per spec §7 the model
is only returned on full success. -/
def Network.load_state_dict (net : Network) (sd : List (ParamKey × Tensor)) :
    Except FcError Network :=
  if net.collectMismatches sd = [] then .ok (net.copyFrom sd)
  else .error (.shapeMismatchError (net.collectMismatches sd))

/-- The checkpoint record of Part 6 cell 19: `input_size`, `output_size`, the
`hidden_layers` width list and the full state dict. -/
structure Checkpoint where
  input_size : ℕ
  output_size : ℕ
  hidden_layers : List ℕ
  state_dict : List (ParamKey × Tensor)
deriving DecidableEq

/-- The checkpoint writer of Part 6 cell 19, generalized per spec §4.2 to read
`input_size`/`output_size` from the classifier (the notebook cell writes the
literals `784`/`10` for its concrete model); `hidden_layers` is the cell's
comprehension `[each.out_features for each in model.hidden_layers]`. -/
def save_checkpoint (net : Network) : Checkpoint :=
  { input_size := net.input_size
    output_size := net.output_size
    hidden_layers := net.hidden_layers.map fun l => l.out_features
    state_dict := net.state_dict }

/-- The `load_checkpoint` function of Part 6 cell 21: construct a fresh
`Network` from the record's sizes (default `drop_p`, which is not in the
record) and load the record's state dict into it. -/
def load_checkpoint (cp : Checkpoint) : Except FcError Network :=
  (Network.construct cp.input_size cp.output_size cp.hidden_layers
      defaultDropP).bind
    fun net => net.load_state_dict cp.state_dict

/-- Expected parameter shapes implied by recorded sizes alone: hidden layer
`j` (fed `inS` features, producing `h`) has weight shape `[h, inS]` and bias
shape `[h]`. -/
def hiddenSpecsOfSizes : ℕ → ℕ → List ℕ → List (ParamKey × List ℕ)
  | _, _, [] => []
  | j, inS, h :: t =>
      (ParamKey.hidden j ParamKind.weight, [h, inS]) ::
      (ParamKey.hidden j ParamKind.bias, [h]) ::
      hiddenSpecsOfSizes (j + 1) h t

/-- The parameter shapes the architecture implied by a checkpoint record's own
recorded sizes demands of the record's state dict. -/
def Checkpoint.targetSpecs (cp : Checkpoint) : List (ParamKey × List ℕ) :=
  hiddenSpecsOfSizes 0 cp.input_size cp.hidden_layers ++
    [(ParamKey.output ParamKind.weight,
        [cp.output_size, cp.hidden_layers.getLastD cp.input_size]),
     (ParamKey.output ParamKind.bias, [cp.output_size])]

/-- A checkpoint record's stored parameter is offending when it exists under a
key the record's own architecture gives a target shape for, and its stored
shape differs from that target shape. -/
def Checkpoint.offending (cp : Checkpoint) (m : Mismatch) : Prop :=
  (m.key, m.target) ∈ cp.targetSpecs ∧
    ∃ t, lookupT cp.state_dict m.key = some t ∧
      t.shape = m.recorded ∧ m.recorded ≠ m.target

/-! ## Forward pass -/

/-- Dot product of two equal-length vectors. -/
def dot (a b : List ℚ) : ℚ := (List.zipWith (· * ·) a b).sum

/-- The affine transform of a layer: row-wise dot product plus bias. -/
def Linear.affine (l : Linear) (x : List ℚ) : List ℚ :=
  List.zipWith (fun row b => dot row x + b) l.weight l.bias

/-- Elementwise rectification `max(0, x)`. -/
def reluL (x : List ℚ) : List ℚ := x.map fun v => max v 0

/-- The hidden part of the evaluation-mode forward pass: each hidden layer's
affine transform followed by rectification (dropout is the identity in
evaluation mode). -/
def Network.hiddenForward (net : Network) (x : List ℚ) : List ℚ :=
  net.hidden_layers.foldl (fun a l => reluL (l.affine a)) x

/-- The engine's `LogSoftmax(dim=1)` on one row of scores:
`xᵢ ↦ xᵢ - log ∑ⱼ exp xⱼ`. -/
noncomputable def logSoftmax (xs : List ℝ) : List ℝ :=
  xs.map fun v => v - Real.log ((xs.map Real.exp).sum)

/-- Embed a vector of exact rationals into the reals. -/
def toRealList (l : List ℚ) : List ℝ :=
  l.map (Rat.cast : ℚ → ℝ)

/-- Modelled from the spec: `fc_model.Network.forward` in evaluation mode on a
single example — hidden layers (affine, relu, dropout as identity), final
affine transform, then log-softmax across the class dimension. -/
noncomputable def Network.forward_eval (net : Network) (x : List ℚ) : List ℝ :=
  logSoftmax (toRealList (net.output.affine (net.hiddenForward x)))

/-- Evaluation-mode forward pass on a batch: one log-probability row per
example. -/
noncomputable def Network.forwardBatch (net : Network) (xs : List (List ℚ)) :
    List (List ℝ) :=
  xs.map net.forward_eval

/-! ## Loss functions (the engine primitives the Part 3 notebook compares) -/

/-- Modelled from the spec: the engine's `nn.NLLLoss()` (mean reduction) on
log-probability rows and integer labels — per example the negated entry at the
label index, averaged over the batch. -/
noncomputable def nllLoss (ps : List (List ℝ)) (ys : List ℕ) : ℝ :=
  (List.zipWith (fun row y => -(row.getD y 0)) ps ys).sum / ps.length

/-- Modelled from the spec: the engine's `nn.CrossEntropyLoss()` (mean
reduction) on raw score rows and integer labels — per example
`-(x_y - log ∑ exp x)`, averaged over the batch. -/
noncomputable def crossEntropyLoss (logits : List (List ℝ)) (ys : List ℕ) :
    ℝ :=
  (List.zipWith
      (fun row y => -(row.getD y 0 - Real.log ((row.map Real.exp).sum)))
      logits ys).sum / logits.length

/-! ## The Part 3 epoch loop

The engine work done for one batch (`zero_grad`; forward; loss; backward;
`optimizer.step()`; `loss.item()`) is abstracted as a step function
`step : M → B → M × ℚ` returning the updated model state and the scalar batch
loss, exactly the loop body's observable effect. -/

/-- Python's division as the notebook uses it in `running_loss/len(trainloader)`:
raises `ZeroDivisionError` (here `none`) when the denominator is zero. -/
def pyDiv (a : ℚ) (n : ℕ) : Option ℚ :=
  if n = 0 then none else some (a / n)

/-- One epoch's inner `for` loop: thread the model through the batches while
accumulating `running_loss` (started at `0`). -/
def trainEpoch {M B : Type} (step : M → B → M × ℚ) (m : M) (bs : List B) :
    M × ℚ :=
  bs.foldl (fun acc b => ((step acc.1 b).1, acc.2 + (step acc.1 b).2)) (m, 0)

/-- The per-batch scalar losses of one epoch, in batch order. -/
def batchLosses {M B : Type} (step : M → B → M × ℚ) : M → List B → List ℚ
  | _, [] => []
  | m, b :: bs => (step m b).2 :: batchLosses step (step m b).1 bs

/-- The model after one epoch's pass over the batches. -/
def runBatches {M B : Type} (step : M → B → M × ℚ) : M → List B → M
  | m, [] => m
  | m, b :: bs => runBatches step (step m b).1 bs

/-- The Part 3 cell 30 epoch loop: for each epoch, reset `running_loss`, pass
once over all batches, then (the `for`/`else` arm) report
`running_loss/len(trainloader)` exactly once.  Returns the final model and the
list of per-epoch reports in epoch order. -/
def trainLoop {M B : Type} (step : M → B → M × ℚ) (m : M) (bs : List B) :
    ℕ → M × List (Option ℚ)
  | 0 => (m, [])
  | n + 1 =>
      ((trainLoop step (trainEpoch step m bs).1 bs n).1,
        pyDiv (trainEpoch step m bs).2 bs.length ::
          (trainLoop step (trainEpoch step m bs).1 bs n).2)

/-- One whole-epoch step on the model state. -/
def epochStep {M B : Type} (step : M → B → M × ℚ) (bs : List B) (m : M) : M :=
  (trainEpoch step m bs).1

/-- The model state at the start of epoch `e` (zero-based). -/
def modelAtEpoch {M B : Type} (step : M → B → M × ℚ) (m : M) (bs : List B)
    (e : ℕ) : M :=
  (epochStep step bs)^[e] m

/-! ## Well-formedness -/

/-- A layer's stored parameters agree with its declared dimensions. -/
def Linear.wfDims (l : Linear) : Prop :=
  l.weight.length = l.out_features ∧
    (∀ r ∈ l.weight, r.length = l.in_features) ∧
    l.bias.length = l.out_features

/-- The spec §3 classifier invariants: positive sizes, the layer-chaining
invariant (each layer consumes the previous layer's width), and parameters
whose stored shapes agree with the declared dimensions. -/
def Network.wf (net : Network) : Prop :=
  0 < net.input_size ∧ 0 < net.output_size ∧
    (∀ h ∈ net.hiddenSizes, 0 < h) ∧
    (net.hidden_layers.map fun l => (l.in_features, l.out_features)) =
      List.zip (net.input_size :: net.hiddenSizes) net.hiddenSizes ∧
    net.output.in_features = net.hiddenSizes.getLastD net.input_size ∧
    net.output.out_features = net.output_size ∧
    (∀ l ∈ net.hidden_layers, l.wfDims) ∧
    net.output.wfDims

deriving instance DecidableEq for Except

/-! ## Helper lemmas -/

theorem zip_snd (hs : List ℕ) (i : ℕ) :
    ((i :: hs).zip hs).map Prod.snd = hs := by
  induction hs generalizing i with
  | nil => rfl
  | cons h t ih => simpa [List.zip_cons_cons] using ih h

theorem zip_feature (hs : List ℕ) (i o : ℕ) :
    ((i :: hs).zip hs).map (fun p => (p.2, p.1)) ++ [(o, hs.getLastD i)] =
      (hs ++ [o]).zip (i :: hs) := by
  induction hs generalizing i with
  | nil => rfl
  | cons h t ih =>
      rw [List.getLastD_cons]
      simpa [List.zip_cons_cons] using ih h

/-- Claim C8: constructing a classifier fails with a `ConfigurationError`
exactly when `input_size`, `output_size` or some entry of `hidden_sizes` is
not a positive integer, synchronously at construction time. -/
theorem construct_configuration_error_iff (i o : ℕ) (hs : List ℕ) (p : ℚ) :
    Network.construct i o hs p = .error FcError.configurationError ↔
      (i = 0 ∨ o = 0 ∨ ∃ h ∈ hs, h = 0) := by
  unfold Network.construct
  by_cases hc : i = 0 ∨ o = 0 ∨ ∃ h ∈ hs, h = 0
  · rw [if_pos hc]
    exact iff_of_true rfl hc
  · rw [if_neg hc]
    exact iff_of_false (by simp) hc

/-- Claim C4: construction with `(input_size, output_size, hidden_sizes)`
allocates exactly one affine layer per consecutive pair in
`[input_size] + hidden_sizes + [output_size]`: the layer sequence has
`hidden_sizes.length + 1` layers whose `(out_features, in_features)` pairs are
the consecutive pairs, whose bias lengths are `hidden_sizes ++ [output_size]`,
and whose stored weight matrices have the declared shapes. -/
theorem construct_layer_shapes (i o : ℕ) (hs : List ℕ) (p : ℚ)
    (hi : i ≠ 0) (ho : o ≠ 0) (hh : ∀ h ∈ hs, h ≠ 0) :
    ∃ net, Network.construct i o hs p = .ok net ∧
      (net.hidden_layers ++ [net.output]).length = hs.length + 1 ∧
      (net.hidden_layers ++ [net.output]).map
          (fun l => (l.out_features, l.in_features)) =
        (hs ++ [o]).zip (i :: hs) ∧
      (net.hidden_layers ++ [net.output]).map (fun l => l.bias.length) =
        hs ++ [o] ∧
      ∀ l ∈ net.hidden_layers ++ [net.output],
        l.weight.length = l.out_features ∧
          ∀ r ∈ l.weight, r.length = l.in_features := by
  have hc : ¬(i = 0 ∨ o = 0 ∨ ∃ h ∈ hs, h = 0) := by
    push_neg
    exact ⟨hi, ho, hh⟩
  refine ⟨_, by rw [Network.construct, if_neg hc], ?_, ?_, ?_, ?_⟩
  · simp [List.length_zip, Nat.min_eq_right (Nat.le_succ hs.length)]
  · rw [List.map_append, List.map_map]
    simpa [mkLinear, Function.comp] using zip_feature hs i o
  · rw [List.map_append, List.map_map]
    have : ((i :: hs).zip hs).map
        ((fun l => l.bias.length) ∘ fun p => mkLinear p.1 p.2) =
        ((i :: hs).zip hs).map Prod.snd := by
      simp [mkLinear, Function.comp]
    rw [this, zip_snd]
    simp [mkLinear]
  · intro l hl
    rcases List.mem_append.1 hl with hmem | hmem
    · rcases List.mem_map.1 hmem with ⟨q, _, rfl⟩
      refine ⟨by simp [mkLinear], ?_⟩
      intro r hr
      simp only [mkLinear] at hr ⊢
      rw [List.eq_of_mem_replicate hr]
      simp
    · rcases List.mem_singleton.1 hmem with rfl
      refine ⟨by simp [mkLinear], ?_⟩
      intro r hr
      simp only [mkLinear] at hr ⊢
      rw [List.eq_of_mem_replicate hr]
      simp

/-- Witness for C4 at the spec's concrete scenario
`Classifier(784, 10, [512, 256, 128])`. -/
theorem construct_layer_shapes_witness :
    ∃ net, Network.construct 784 10 [512, 256, 128] defaultDropP = .ok net ∧
      (net.hidden_layers ++ [net.output]).length = [512, 256, 128].length + 1 ∧
      (net.hidden_layers ++ [net.output]).map
          (fun l => (l.out_features, l.in_features)) =
        ([512, 256, 128] ++ [10]).zip (784 :: [512, 256, 128]) ∧
      (net.hidden_layers ++ [net.output]).map (fun l => l.bias.length) =
        [512, 256, 128] ++ [10] ∧
      ∀ l ∈ net.hidden_layers ++ [net.output],
        l.weight.length = l.out_features ∧
          ∀ r ∈ l.weight, r.length = l.in_features :=
  construct_layer_shapes 784 10 [512, 256, 128] defaultDropP (by decide)
    (by decide) (by decide)

/-- Claim C5: the checkpoint writer records `hidden_sizes` by reading the
`out_features` of every layer except the last, in layer order, and for a
constructed classifier this derived sequence equals the `hidden_sizes`
sequence passed at construction. -/
theorem save_checkpoint_hidden_sizes (i o : ℕ) (hs : List ℕ) (p : ℚ)
    (net : Network) (h : Network.construct i o hs p = .ok net) :
    (save_checkpoint net).hidden_layers = hs ∧
      (save_checkpoint net).hidden_layers = net.hiddenSizes := by
  rw [Network.construct] at h
  split at h
  · exact absurd h (by simp)
  · cases Except.ok.inj h
    constructor
    · show ((List.zip (i :: hs) hs).map fun p => mkLinear p.1 p.2).map _ = hs
      rw [List.map_map]
      have : ((i :: hs).zip hs).map
          ((fun l => l.out_features) ∘ fun p => mkLinear p.1 p.2) =
          ((i :: hs).zip hs).map Prod.snd := by
        simp [mkLinear, Function.comp]
      rw [this, zip_snd]
    · rfl

/-- Witness for C5 on the constructed classifier `Network.construct 1 1 [1]`. -/
theorem save_checkpoint_hidden_sizes_witness :
    (save_checkpoint ⟨1, 1, [mkLinear 1 1], mkLinear 1 1, defaultDropP,
        true⟩).hidden_layers = [1] ∧
      (save_checkpoint ⟨1, 1, [mkLinear 1 1], mkLinear 1 1, defaultDropP,
        true⟩).hidden_layers =
        Network.hiddenSizes ⟨1, 1, [mkLinear 1 1], mkLinear 1 1, defaultDropP,
          true⟩ :=
  save_checkpoint_hidden_sizes 1 1 [1] defaultDropP _ (by decide)

theorem foldl_train {M B : Type} (step : M → B → M × ℚ) (bs : List B) :
    ∀ (m : M) (c : ℚ),
      bs.foldl (fun acc b => ((step acc.1 b).1, acc.2 + (step acc.1 b).2))
          (m, c) =
        (runBatches step m bs, c + (batchLosses step m bs).sum) := by
  induction bs with
  | nil => intro m c; simp [runBatches, batchLosses]
  | cons b t ih =>
      intro m c
      simp only [List.foldl_cons, runBatches, batchLosses, List.sum_cons]
      rw [ih]
      ring_nf

theorem trainEpoch_eq {M B : Type} (step : M → B → M × ℚ) (m : M)
    (bs : List B) :
    trainEpoch step m bs = (runBatches step m bs, (batchLosses step m bs).sum) := by
  rw [trainEpoch, foldl_train]
  rw [zero_add]

theorem trainLoop_reports {M B : Type} (step : M → B → M × ℚ) (bs : List B) :
    ∀ (n : ℕ) (m : M),
      (trainLoop step m bs n).2.length = n ∧
        ∀ e, e < n → (trainLoop step m bs n).2.getD e none =
          pyDiv (batchLosses step (modelAtEpoch step m bs e) bs).sum
            bs.length := by
  intro n
  induction n with
  | zero => intro m; exact ⟨rfl, fun e he => absurd he (Nat.not_lt_zero e)⟩
  | succ n ih =>
      intro m
      constructor
      · simpa [trainLoop] using (ih (trainEpoch step m bs).1).1
      · intro e he
        cases e with
        | zero =>
            simp only [trainLoop, List.getD_cons_zero]
            rw [trainEpoch_eq]
            rfl
        | succ e =>
            simp only [trainLoop, List.getD_cons_succ]
            rw [(ih (trainEpoch step m bs).1).2 e (Nat.lt_of_succ_lt_succ he)]
            have : modelAtEpoch step m bs (e + 1) =
                modelAtEpoch step (trainEpoch step m bs).1 bs e := by
              rw [modelAtEpoch, Function.iterate_succ_apply]
              rfl
            rw [this]

/-- Claim C7: for every epoch of the Part 3 training loop over a finite
non-empty train-batch sequence, the reported average training loss equals the
sum of that epoch's per-batch scalar losses divided by the number of training
batches, and there is exactly one report per epoch (the reports list has one
entry per epoch, produced after the epoch's pass over all batches). -/
theorem train_loop_epoch_report {M B : Type} (step : M → B → M × ℚ) (m : M)
    (bs : List B) (n : ℕ) (hbs : bs ≠ []) :
    (trainLoop step m bs n).2.length = n ∧
      ∀ e, e < n → (trainLoop step m bs n).2.getD e none =
        some ((batchLosses step (modelAtEpoch step m bs e) bs).sum /
          (bs.length : ℚ)) := by
  obtain ⟨hlen, hrep⟩ := trainLoop_reports step bs n m
  refine ⟨hlen, fun e he => ?_⟩
  rw [hrep e he, pyDiv, if_neg (by simpa using hbs)]

/-- A concrete engine step used by the training-loop witnesses: the "model" is
a running rational, the batch is a rational, the batch loss is the batch
itself. -/
def demoStep (m b : ℚ) : ℚ × ℚ := (m + b, b)

/-- Witness for C7 on a two-batch, two-epoch loop. -/
theorem train_loop_epoch_report_witness :
    (trainLoop demoStep 0 [1, 2] 2).2.getD 0 none =
      some ((batchLosses demoStep (modelAtEpoch demoStep 0 [1, 2] 0)
          [1, 2]).sum / (([1, 2] : List ℚ).length : ℚ)) :=
  (train_loop_epoch_report demoStep 0 [1, 2] 2 (by decide)).2 0 (by decide)

/-- Claim C10: the per-epoch report divides by the number of training batches
with no guard, so it is defined exactly when the train-batch sequence is
non-empty: on an empty sequence every epoch's report is a division by zero and
fails, and on a non-empty sequence every epoch's report is defined. -/
theorem train_report_requires_nonempty {M B : Type} (step : M → B → M × ℚ)
    (m : M) (bs : List B) (n : ℕ) :
    (bs = [] → (trainLoop step m bs n).2 = List.replicate n none) ∧
      (bs ≠ [] → ∀ e, e < n →
        ((trainLoop step m bs n).2.getD e none).isSome) := by
  constructor
  · rintro rfl
    induction n generalizing m with
    | zero => rfl
    | succ n ih =>
        simp only [trainLoop, List.replicate_succ, List.cons.injEq]
        exact ⟨by simp [pyDiv], ih _⟩
  · intro hbs e he
    rw [((trainLoop_reports step bs n m).2) e he, pyDiv,
      if_neg (by simpa using hbs)]
    rfl

/-- Witness for C10: with no training batches, all three epoch reports fail. -/
theorem train_report_requires_nonempty_witness :
    (trainLoop demoStep 0 ([] : List ℚ) 3).2 = List.replicate 3 none :=
  (train_report_requires_nonempty demoStep 0 ([] : List ℚ) 3).1 rfl

theorem sum_exp_pos (xs : List ℝ) (h : xs ≠ []) :
    0 < (xs.map Real.exp).sum := by
  cases xs with
  | nil => exact absurd rfl h
  | cons a t =>
      simp only [List.map_cons, List.sum_cons]
      refine add_pos_of_pos_of_nonneg (Real.exp_pos a) ?_
      refine List.sum_nonneg ?_
      intro x hx
      rcases List.mem_map.1 hx with ⟨v, _, rfl⟩
      exact le_of_lt (Real.exp_pos v)

theorem sum_map_div (l : List ℝ) (S : ℝ) :
    (l.map fun x => x / S).sum = l.sum / S := by
  induction l with
  | nil => simp
  | cons a t ih => simp [ih, add_div]

theorem sum_exp_logSoftmax (xs : List ℝ) (h : xs ≠ []) :
    ((logSoftmax xs).map Real.exp).sum = 1 := by
  have hS : 0 < (xs.map Real.exp).sum := sum_exp_pos xs h
  unfold logSoftmax
  rw [List.map_map]
  have hfun : (Real.exp ∘ fun v => v - Real.log ((xs.map Real.exp).sum)) =
      fun v => Real.exp v / (xs.map Real.exp).sum := by
    funext v
    simp [Function.comp, Real.exp_sub, Real.exp_log hS]
  rw [hfun]
  have : (xs.map fun v => Real.exp v / (xs.map Real.exp).sum) =
      (xs.map Real.exp).map fun x => x / (xs.map Real.exp).sum := by
    rw [List.map_map]
    rfl
  rw [this, sum_map_div]
  exact div_self (ne_of_gt hS)

/-- Claim C3: for every input batch, applying `exp` to the classifier's
evaluation-mode forward output and summing across the class dimension gives 1
for each example — the final log-softmax normalizes the raw scores into
per-example log-probabilities. -/
theorem forward_logprob_normalized (net : Network)
    (hdims : net.output.wfDims) (hpos : 0 < net.output.out_features)
    (xs : List (List ℚ)) :
    ∀ row ∈ net.forwardBatch xs, (row.map Real.exp).sum = 1 := by
  intro row hrow
  rcases List.mem_map.1 hrow with ⟨x, _, rfl⟩
  unfold Network.forward_eval
  apply sum_exp_logSoftmax
  apply List.length_pos.1
  simp only [toRealList, List.length_map, Linear.affine, List.length_zipWith,
    hdims.1, hdims.2.2, Nat.min_self]
  exact hpos

/-- Witness for C3 on a one-class classifier and the batch `[[5]]`. -/
theorem forward_logprob_normalized_witness :
    ((Network.forward_eval ⟨1, 1, [], ⟨1, 1, [[1]], [0]⟩, defaultDropP, true⟩
        [5]).map Real.exp).sum = 1 :=
  forward_logprob_normalized
    ⟨1, 1, [], ⟨1, 1, [[1]], [0]⟩, defaultDropP, true⟩
    (by unfold Linear.wfDims; decide) (by decide) [[5]] _
    (by simp [Network.forwardBatch])

theorem getD_logSoftmax (row : List ℝ) (y : ℕ) (hy : y < row.length) :
    (logSoftmax row).getD y 0 =
      row.getD y 0 - Real.log ((row.map Real.exp).sum) := by
  have hy' : row.get? y = some (row.get ⟨y, hy⟩) := List.get?_eq_get hy
  unfold logSoftmax
  rw [List.getD_eq_getD_get?, List.get?_map, hy', List.getD_eq_getD_get?, hy']
  simp

/-- Claim C9: on every batch of raw score rows and integer labels in range,
the cross-entropy loss computed directly on the raw scores equals the
negative-log-likelihood loss computed on the log-softmax of the same scores —
the two Part 3 pipelines are equivalent loss computations. -/
theorem cross_entropy_eq_nll_logSoftmax (logits : List (List ℝ))
    (ys : List ℕ)
    (h : List.Forall₂ (fun row y => y < row.length) logits ys) :
    crossEntropyLoss logits ys = nllLoss (logits.map logSoftmax) ys := by
  unfold crossEntropyLoss nllLoss
  rw [List.length_map]
  congr 1
  induction h with
  | nil => rfl
  | cons hd _ ih =>
      simp only [List.map_cons, List.zipWith_cons_cons, List.sum_cons]
      rw [getD_logSoftmax _ _ hd, ih]

/-- Witness for C9 at the batch `[[0, 0]]` with label `0`. -/
theorem cross_entropy_eq_nll_logSoftmax_witness :
    crossEntropyLoss [[0, 0]] [0] = nllLoss ([[0, 0]].map logSoftmax) [0] :=
  cross_entropy_eq_nll_logSoftmax [[0, 0]] [0]
    (List.Forall₂.cons (by decide) List.Forall₂.nil)

/-! ## Checkpoint lemmas -/

/-- The stored tensor of a given kind of a layer. -/
def tensorOf : ParamKind → Linear → Tensor
  | ParamKind.weight, l => Tensor.mat l.weight
  | ParamKind.bias, l => Tensor.vec l.bias

theorem lookupT_cons (p : ParamKey × Tensor) (sd : List (ParamKey × Tensor))
    (k : ParamKey) :
    lookupT (p :: sd) k = if p.1 = k then some p.2 else lookupT sd k := by
  by_cases h : p.1 = k
  · rw [lookupT, List.find?_cons_of_pos _ (by simp [h]), if_pos h]
    rfl
  · rw [lookupT, List.find?_cons_of_neg _ (by simp [h]), if_neg h]
    rfl

theorem lookupT_append (l1 l2 : List (ParamKey × Tensor)) (k : ParamKey) :
    lookupT (l1 ++ l2) k = (lookupT l1 k).or (lookupT l2 k) := by
  induction l1 with
  | nil => rfl
  | cons p t ih =>
      rw [List.cons_append, lookupT_cons, lookupT_cons]
      by_cases h : p.1 = k
      · simp [h]
      · simp [h, ih]

theorem lookupT_hiddenEntries (ls : List Linear) :
    ∀ (base j : ℕ) (kind : ParamKind),
      lookupT (hiddenEntries base ls) (ParamKey.hidden (base + j) kind) =
        (ls.get? j).map (tensorOf kind) := by
  induction ls with
  | nil => intro base j kind; rfl
  | cons l t ih =>
      intro base j kind
      rw [hiddenEntries, lookupT_cons, lookupT_cons]
      cases j with
      | zero =>
          cases kind with
          | weight => simp [tensorOf]
          | bias =>
              rw [if_neg (by simp), if_pos (by simp)]
              simp [tensorOf]
      | succ j =>
          rw [if_neg (by simp only [ParamKey.hidden.injEq]; omega),
            if_neg (by simp only [ParamKey.hidden.injEq]; omega)]
          have harith : base + (j + 1) = (base + 1) + j := by omega
          rw [harith, ih]
          rfl

theorem lookupT_hiddenEntries_output (ls : List Linear) :
    ∀ (base : ℕ) (kind : ParamKind),
      lookupT (hiddenEntries base ls) (ParamKey.output kind) = none := by
  induction ls with
  | nil => intro base kind; rfl
  | cons l t ih =>
      intro base kind
      rw [hiddenEntries, lookupT_cons, lookupT_cons, if_neg (by simp),
        if_neg (by simp), ih]

theorem lookupT_state_dict_hidden (net : Network) (j : ℕ) (kind : ParamKind) :
    lookupT net.state_dict (ParamKey.hidden j kind) =
      (net.hidden_layers.get? j).map (tensorOf kind) := by
  rw [Network.state_dict, lookupT_append]
  have h0 := lookupT_hiddenEntries net.hidden_layers 0 j kind
  rw [Nat.zero_add] at h0
  rw [h0]
  cases h : net.hidden_layers.get? j with
  | some l => rfl
  | none =>
      rw [Option.map_none', Option.none_or, lookupT_cons, if_neg (by simp),
        lookupT_cons, if_neg (by simp)]
      rfl

theorem lookupT_state_dict_output (net : Network) (kind : ParamKind) :
    lookupT net.state_dict (ParamKey.output kind) =
      some (tensorOf kind net.output) := by
  rw [Network.state_dict, lookupT_append, lookupT_hiddenEntries_output,
    Option.none_or]
  cases kind with
  | weight => rw [lookupT_cons, if_pos rfl]; rfl
  | bias => rw [lookupT_cons, if_neg (by simp), lookupT_cons, if_pos rfl]; rfl

theorem shape_mat (l : Linear) (h : l.wfDims) (hpos : 0 < l.out_features) :
    (Tensor.mat l.weight).shape = [l.out_features, l.in_features] := by
  obtain ⟨h1, h2, _⟩ := h
  cases hw : l.weight with
  | nil =>
      rw [hw] at h1
      simp at h1
      omega
  | cons r rs =>
      rw [hw] at h1 h2
      rw [Tensor.shape, List.headD_cons, h1, h2 r (List.mem_cons_self r rs)]

theorem shape_vec (l : Linear) (h : l.wfDims) :
    (Tensor.vec l.bias).shape = [l.out_features] := by
  rw [Tensor.shape, h.2.2]

theorem checkOne_none (sd : List (ParamKey × Tensor)) (k : ParamKey)
    (t : Tensor) (shape : List ℕ) (hl : lookupT sd k = some t)
    (hshape : t.shape = shape) :
    checkOne sd (k, shape) = none := by
  simp [checkOne, hl, hshape]

theorem copyFrom_eq (l0 l : Linear) (sd : List (ParamKey × Tensor))
    (mk : ParamKind → ParamKey)
    (hin : l0.in_features = l.in_features)
    (hout : l0.out_features = l.out_features)
    (hwfl : l.wfDims) (hposl : 0 < l.out_features)
    (hw : lookupT sd (mk ParamKind.weight) = some (Tensor.mat l.weight))
    (hb : lookupT sd (mk ParamKind.bias) = some (Tensor.vec l.bias)) :
    l0.copyFrom mk sd = l := by
  cases l0 with
  | mk a b w bi =>
      cases l with
      | mk a' b' w' bi' =>
          simp only at hin hout
          subst hin
          subst hout
          simp [Linear.copyFrom, hw, hb, shape_mat _ hwfl hposl,
            shape_vec _ hwfl]

theorem hidden_check_copy (sd : List (ParamKey × Tensor)) :
    ∀ (ls0 : List Linear) (ls : List Linear) (base : ℕ),
      ls0.map (fun l => (l.in_features, l.out_features)) =
        ls.map (fun l => (l.in_features, l.out_features)) →
      (∀ l ∈ ls, l.wfDims ∧ 0 < l.out_features) →
      (∀ j kind, lookupT sd (ParamKey.hidden (base + j) kind) =
        (ls.get? j).map (tensorOf kind)) →
      (hiddenSpecs base ls0).filterMap (checkOne sd) = [] ∧
        copyHidden sd base ls0 = ls := by
  intro ls0
  induction ls0 with
  | nil =>
      intro ls base hfeat _ _
      have : ls = [] := by
        cases ls with
        | nil => rfl
        | cons l t => simp at hfeat
      subst this
      exact ⟨rfl, rfl⟩
  | cons l0 t0 ih =>
      intro ls base hfeat hwf hlook
      cases ls with
      | nil => simp at hfeat
      | cons l t =>
          simp only [List.map_cons, List.cons.injEq] at hfeat
          obtain ⟨hft, hfr⟩ := hfeat
          have hin : l0.in_features = l.in_features := congrArg Prod.fst hft
          have hout : l0.out_features = l.out_features := congrArg Prod.snd hft
          obtain ⟨hwfl, hposl⟩ := hwf l (List.mem_cons_self l t)
          have hw0 : lookupT sd (ParamKey.hidden base ParamKind.weight) =
              some (Tensor.mat l.weight) := by
            simpa [tensorOf] using hlook 0 ParamKind.weight
          have hb0 : lookupT sd (ParamKey.hidden base ParamKind.bias) =
              some (Tensor.vec l.bias) := by
            simpa [tensorOf] using hlook 0 ParamKind.bias
          have hlook' : ∀ j kind,
              lookupT sd (ParamKey.hidden (base + 1 + j) kind) =
                (t.get? j).map (tensorOf kind) := by
            intro j kind
            have hj := hlook (j + 1) kind
            rw [show base + (j + 1) = base + 1 + j from by omega] at hj
            simpa using hj
          obtain ⟨ihc, ihcopy⟩ := ih t (base + 1) hfr
            (fun x hx => hwf x (List.mem_cons_of_mem l hx)) hlook'
          constructor
          · rw [hiddenSpecs, List.filterMap_cons, List.filterMap_cons,
              checkOne_none sd _ _ _ hw0
                (by rw [hout, hin]; exact shape_mat l hwfl hposl),
              checkOne_none sd _ _ _ hb0 (by rw [hout]; exact shape_vec l hwfl),
              ihc]
          · rw [copyHidden,
              copyFrom_eq l0 l sd (ParamKey.hidden base) hin hout hwfl hposl
                hw0 hb0,
              ihcopy]

theorem collect_of_parts (net0 : Network) (sd : List (ParamKey × Tensor))
    (h1 : (hiddenSpecs 0 net0.hidden_layers).filterMap (checkOne sd) = [])
    (h2 : checkOne sd (ParamKey.output ParamKind.weight,
      [net0.output.out_features, net0.output.in_features]) = none)
    (h3 : checkOne sd (ParamKey.output ParamKind.bias,
      [net0.output.out_features]) = none) :
    net0.collectMismatches sd = [] := by
  rw [Network.collectMismatches, Network.paramSpecs, List.filterMap_append, h1,
    List.filterMap_cons, h2, List.filterMap_cons, h3]
  rfl

/-- `load_checkpoint ∘ save_checkpoint` on a well-formed classifier returns
the same classifier up to the non-persisted fields: `drop_p` reverts to the
default and the mode flag to training. -/
theorem load_save_roundtrip (net : Network) (h : net.wf) :
    load_checkpoint (save_checkpoint net) =
      .ok { net with drop_p := defaultDropP, training := true } := by
  obtain ⟨hi, ho, hhs, hchain, hoin, hoout, hhwf, howf⟩ := h
  have hc : ¬(net.input_size = 0 ∨ net.output_size = 0 ∨
      ∃ x ∈ net.hiddenSizes, x = 0) := by
    push_neg
    exact ⟨Nat.pos_iff_ne_zero.1 hi, Nat.pos_iff_ne_zero.1 ho,
      fun x hx => Nat.pos_iff_ne_zero.1 (hhs x hx)⟩
  have hfeat :
      ((List.zip (net.input_size :: net.hiddenSizes) net.hiddenSizes).map
          fun p => mkLinear p.1 p.2).map
        (fun l => (l.in_features, l.out_features)) =
      net.hidden_layers.map (fun l => (l.in_features, l.out_features)) := by
    rw [List.map_map, hchain]
    have hid : ((fun l => (l.in_features, l.out_features)) ∘
        fun p : ℕ × ℕ => mkLinear p.1 p.2) = id := by
      funext q
      simp [mkLinear]
    rw [hid, List.map_id]
  have hwfpos : ∀ l ∈ net.hidden_layers, l.wfDims ∧ 0 < l.out_features := by
    intro l hl
    exact ⟨hhwf l hl, hhs l.out_features (List.mem_map_of_mem _ hl)⟩
  have hlook : ∀ j kind,
      lookupT net.state_dict (ParamKey.hidden (0 + j) kind) =
        (net.hidden_layers.get? j).map (tensorOf kind) := by
    intro j kind
    rw [Nat.zero_add]
    exact lookupT_state_dict_hidden net j kind
  obtain ⟨hcheck, hcopy⟩ := hidden_check_copy net.state_dict _
    net.hidden_layers 0 hfeat hwfpos hlook
  have hposout : 0 < net.output.out_features := hoout ▸ ho
  have hw : lookupT net.state_dict (ParamKey.output ParamKind.weight) =
      some (Tensor.mat net.output.weight) :=
    lookupT_state_dict_output net ParamKind.weight
  have hb : lookupT net.state_dict (ParamKey.output ParamKind.bias) =
      some (Tensor.vec net.output.bias) :=
    lookupT_state_dict_output net ParamKind.bias
  have hcall : load_checkpoint (save_checkpoint net) =
      (Network.construct net.input_size net.output_size net.hiddenSizes
        defaultDropP).bind
        (fun n0 => n0.load_state_dict net.state_dict) := rfl
  rw [hcall, Network.construct, if_neg hc]
  show Network.load_state_dict _ _ = _
  have hcol : Network.collectMismatches
      ⟨net.input_size, net.output_size,
        (List.zip (net.input_size :: net.hiddenSizes) net.hiddenSizes).map
          (fun p => mkLinear p.1 p.2),
        mkLinear (net.hiddenSizes.getLastD net.input_size) net.output_size,
        defaultDropP, true⟩ net.state_dict = [] := by
    refine collect_of_parts _ _ hcheck ?_ ?_
    · refine checkOne_none _ _ _ _ hw ?_
      rw [shape_mat net.output howf hposout, hoout, hoin]
      exact rfl
    · refine checkOne_none _ _ _ _ hb ?_
      rw [shape_vec net.output howf, hoout]
      exact rfl
  rw [Network.load_state_dict]
  simp only [hcol, if_pos]
  rw [Network.copyFrom]
  simp only
  rw [hcopy,
    copyFrom_eq _ net.output net.state_dict ParamKey.output
      (by show net.hiddenSizes.getLastD net.input_size = _; rw [hoin])
      (by show net.output_size = _; rw [hoout]) howf hposout hw hb]

/-- Claim C1: checkpoint round-trip — for any well-formed classifier `C`,
`load_checkpoint (save_checkpoint C)` yields a classifier with the same
`input_size`, `output_size` and `hidden_sizes`, whose evaluation-mode forward
output equals that of `C` on every input. -/
theorem checkpoint_roundtrip (net : Network) (h : net.wf) :
    ∃ net', load_checkpoint (save_checkpoint net) = .ok net' ∧
      net'.input_size = net.input_size ∧
      net'.output_size = net.output_size ∧
      net'.hiddenSizes = net.hiddenSizes ∧
      ∀ x, net'.forward_eval x = net.forward_eval x :=
  ⟨{ net with drop_p := defaultDropP, training := true },
    load_save_roundtrip net h, rfl, rfl, rfl, fun _ => rfl⟩

/-- A concrete trained classifier used by the C1 witness (non-default
dropout rate 3/4, evaluation mode, non-zero parameters). -/
def wnetA : Network :=
  ⟨1, 1, [], ⟨1, 1, [[2]], [3]⟩, ⟨3, 4, by decide, by decide⟩, false⟩

/-- Witness for C1 on the concrete classifier `wnetA`. -/
theorem checkpoint_roundtrip_witness :
    ∃ net', load_checkpoint (save_checkpoint wnetA) = .ok net' ∧
      net'.input_size = wnetA.input_size ∧
      net'.output_size = wnetA.output_size ∧
      net'.hiddenSizes = wnetA.hiddenSizes ∧
      ∀ x, net'.forward_eval x = wnetA.forward_eval x :=
  checkpoint_roundtrip wnetA
    (by unfold Network.wf Linear.wfDims Network.hiddenSizes; decide)

/-- Claim C6: whatever the checkpoint record, any classifier returned by
`load_checkpoint` carries the default dropout rate — `drop_p` is not read from
the record, which does not persist it. -/
theorem load_checkpoint_default_drop_p (cp : Checkpoint) (net' : Network)
    (h : load_checkpoint cp = .ok net') : net'.drop_p = defaultDropP := by
  rw [load_checkpoint, Network.construct] at h
  split at h
  · exact absurd h (by simp [Except.bind])
  · replace h : Network.load_state_dict _ _ = Except.ok net' := h
    rw [Network.load_state_dict] at h
    split at h
    · cases Except.ok.inj h
      rfl
    · exact absurd h (by simp)

/-- A concrete classifier with non-default dropout rate 1/4 used by the C6
witness. -/
def wnetB : Network :=
  ⟨1, 1, [], ⟨1, 1, [[5]], [7]⟩, ⟨1, 4, by decide, by decide⟩, false⟩

/-- Witness for C6: loading the checkpoint saved from `wnetB` (whose `drop_p`
is 1/4) yields a classifier with the default `drop_p`. -/
theorem load_checkpoint_default_drop_p_witness :
    (Network.mk 1 1 [] ⟨1, 1, [[5]], [7]⟩ defaultDropP true).drop_p =
      defaultDropP :=
  load_checkpoint_default_drop_p (save_checkpoint wnetB) _ (by decide)

theorem hiddenSpecs_mk (hs : List ℕ) :
    ∀ (i base : ℕ),
      hiddenSpecs base
          ((List.zip (i :: hs) hs).map fun p => mkLinear p.1 p.2) =
        hiddenSpecsOfSizes base i hs := by
  induction hs with
  | nil => intro i base; rfl
  | cons h t ih =>
      intro i base
      rw [List.zip_cons_cons, List.map_cons, hiddenSpecs, hiddenSpecsOfSizes,
        ih h (base + 1)]
      exact rfl

theorem paramSpecs_construct (cp : Checkpoint) (net0 : Network)
    (h : Network.construct cp.input_size cp.output_size cp.hidden_layers
      defaultDropP = .ok net0) :
    net0.paramSpecs = cp.targetSpecs := by
  rw [Network.construct] at h
  split at h
  · exact absurd h (by simp)
  · cases Except.ok.inj h
    rw [Network.paramSpecs, Checkpoint.targetSpecs,
      hiddenSpecs_mk cp.hidden_layers cp.input_size 0]
    exact rfl

theorem mem_collectMismatches (net0 : Network) (sd : List (ParamKey × Tensor))
    (m : Mismatch) :
    m ∈ net0.collectMismatches sd ↔
      (m.key, m.target) ∈ net0.paramSpecs ∧
        ∃ t, lookupT sd m.key = some t ∧ t.shape = m.recorded ∧
          m.recorded ≠ m.target := by
  rw [Network.collectMismatches, List.mem_filterMap]
  constructor
  · rintro ⟨spec, hmem, hf⟩
    rcases hlk : lookupT sd spec.1 with _ | t
    · simp [checkOne, hlk] at hf
    · simp only [checkOne, hlk] at hf
      by_cases hsh : t.shape = spec.2
      · rw [if_pos hsh] at hf
        exact absurd hf (by simp)
      · rw [if_neg hsh] at hf
        cases Option.some.inj hf
        exact ⟨by simpa using hmem, t, hlk, rfl, hsh⟩
  · rintro ⟨hmem, t, hlk, hsh, hne⟩
    refine ⟨(m.key, m.target), hmem, ?_⟩
    simp only [checkOne, hlk]
    rw [if_neg (by rw [hsh]; exact hne), hsh]

/-- Claim C2: for every checkpoint record (whose recorded sizes form a valid
architecture) holding stored parameter shapes inconsistent with the
architecture implied by the record's own recorded sizes, `load_checkpoint`
fails with a `ShapeMismatchError` whose mismatch list names exactly the
offending parameters, each with its recorded shape and its target shape. -/
theorem load_checkpoint_shape_mismatch (cp : Checkpoint)
    (hi : cp.input_size ≠ 0) (ho : cp.output_size ≠ 0)
    (hh : ∀ h ∈ cp.hidden_layers, h ≠ 0)
    (hbad : ∃ m, cp.offending m) :
    ∃ ms, load_checkpoint cp = .error (.shapeMismatchError ms) ∧
      ms ≠ [] ∧ ∀ m, m ∈ ms ↔ cp.offending m := by
  have hc : ¬(cp.input_size = 0 ∨ cp.output_size = 0 ∨
      ∃ h ∈ cp.hidden_layers, h = 0) := by
    push_neg
    exact ⟨hi, ho, hh⟩
  obtain ⟨net0, hok⟩ : ∃ n, Network.construct cp.input_size cp.output_size
      cp.hidden_layers defaultDropP = .ok n :=
    ⟨_, by rw [Network.construct, if_neg hc]⟩
  have hspecs : net0.paramSpecs = cp.targetSpecs := paramSpecs_construct cp net0 hok
  have hiff : ∀ m, m ∈ net0.collectMismatches cp.state_dict ↔ cp.offending m := by
    intro m
    rw [mem_collectMismatches, hspecs]
    exact Iff.rfl
  have hmsne : net0.collectMismatches cp.state_dict ≠ [] := by
    obtain ⟨m, hm⟩ := hbad
    intro hemp
    have hmm : m ∈ net0.collectMismatches cp.state_dict := (hiff m).2 hm
    rw [hemp] at hmm
    exact absurd hmm (List.not_mem_nil m)
  refine ⟨net0.collectMismatches cp.state_dict, ?_, hmsne, hiff⟩
  rw [load_checkpoint, hok]
  show Network.load_state_dict _ _ = _
  rw [Network.load_state_dict, if_neg hmsne]

/-- A hand-corrupted checkpoint record used by the C2 witness: it declares a
1-in/1-out architecture with no hidden layers but stores an output weight of
shape (1, 2). -/
def badCp : Checkpoint :=
  ⟨1, 1, [],
    [(ParamKey.output ParamKind.weight, Tensor.mat [[1, 2]]),
     (ParamKey.output ParamKind.bias, Tensor.vec [0])]⟩

/-- Witness for C2 on the corrupted record `badCp`. -/
theorem load_checkpoint_shape_mismatch_witness :
    ∃ ms, load_checkpoint badCp = .error (.shapeMismatchError ms) ∧
      ms ≠ [] ∧ ∀ m, m ∈ ms ↔ badCp.offending m :=
  load_checkpoint_shape_mismatch badCp (by decide) (by decide) (by decide)
    ⟨⟨ParamKey.output ParamKind.weight, [1, 2], [1, 1]⟩, by decide,
      Tensor.mat [[1, 2]], by decide, by decide, by decide⟩

end FcModel
